import Mathlib

/-
Verification development for the keyword-intelligence term-significance
pipeline.  The Python source is shallowly embedded: pure functions become
Lean functions over ℕ / ℚ / String, the SQLite store becomes an explicit
record of row lists, and Python floats are idealized as exact rationals.
Python string operations are modelled for ASCII text (the corpus the
system processes); `py`-prefixed helpers mirror the semantics of the
corresponding Python builtins on ASCII input.
-/

namespace KWI

/-! ### ASCII character model of the Python string builtins -/

/-- ASCII uppercase letter test, mirroring Python `str.isupper` on one char. -/
def asciiIsUpper (c : Char) : Bool := 65 ≤ c.toNat && c.toNat ≤ 90

/-- ASCII lowercase letter test. -/
def asciiIsLower (c : Char) : Bool := 97 ≤ c.toNat && c.toNat ≤ 122

/-- ASCII letter test. -/
def asciiIsAlpha (c : Char) : Bool := asciiIsUpper c || asciiIsLower c

/-- ASCII digit test, mirroring Python `str.isdigit` on one char. -/
def asciiIsDigit (c : Char) : Bool := 48 ≤ c.toNat && c.toNat ≤ 57

/-- Regex `\w` word-character class (ASCII model): letter, digit or underscore. -/
def isWordChar (c : Char) : Bool := asciiIsAlpha c || asciiIsDigit c || c == '_'

/-- Python whitespace (ASCII): space, tab, newline, carriage return, vertical tab, form feed. -/
def pyIsSpace (c : Char) : Bool :=
  c.toNat == 32 || c.toNat == 9 || c.toNat == 10 || c.toNat == 13 ||
  c.toNat == 11 || c.toNat == 12

/-- Python `str.lower` on one character (ASCII model). -/
def pyCharLower (c : Char) : Char :=
  if asciiIsUpper c then Char.ofNat (c.toNat + 32) else c

/-- Python `str.lower` (ASCII model). -/
def pyLower (s : String) : String := String.mk (s.data.map pyCharLower)

/-- Python `str.isupper`: at least one cased character, and every cased character upper. -/
def pyIsUpper (s : String) : Bool :=
  s.data.any asciiIsAlpha && s.data.all (fun c => !asciiIsAlpha c || asciiIsUpper c)

/-- Python `str.islower`: at least one cased character, and every cased character lower. -/
def pyIsLower (s : String) : Bool :=
  s.data.any asciiIsAlpha && s.data.all (fun c => !asciiIsAlpha c || asciiIsLower c)

/-- Python `str.isdigit` (ASCII model): nonempty and all digits. -/
def pyIsDigit (s : String) : Bool := !s.data.isEmpty && s.data.all asciiIsDigit

/-- Code-point lexicographic order on character lists, mirroring Python string `<`. -/
def codepointLt : List Char → List Char → Bool
  | [], [] => false
  | [], _ :: _ => true
  | _ :: _, [] => false
  | a :: as, b :: bs =>
      if a.toNat < b.toNat then true
      else if a.toNat == b.toNat then codepointLt as bs
      else false

/-- Python string `<`. -/
def pyStrLt (a b : String) : Bool := codepointLt a.data b.data

/-- Python string `>=` (used by the scorer to compare ISO dates). -/
def pyStrGe (a b : String) : Bool := !pyStrLt a b

/-- Python substring membership `sub in hay`, on character lists. -/
def isSubstrChars (needle : List Char) : List Char → Bool
  | [] => needle.isEmpty
  | c :: rest => List.isPrefixOf needle (c :: rest) || isSubstrChars needle rest

/-- Python substring membership `sub in hay`. -/
def pyContains (hay sub : String) : Bool := isSubstrChars sub.data hay.data

/-- Helper for `pySplit`: accumulates the current word (reversed) while scanning. -/
def pySplitAux : List Char → List Char → List String
  | acc, [] => if acc.isEmpty then [] else [String.mk acc.reverse]
  | acc, c :: rest =>
      if pyIsSpace c then
        if acc.isEmpty then pySplitAux [] rest
        else String.mk acc.reverse :: pySplitAux [] rest
      else pySplitAux (c :: acc) rest

/-- Python `str.split()` with no argument: split on whitespace runs, dropping empties. -/
def pySplit (s : String) : List String := pySplitAux [] s.data

/-- Python `' '.join(words)`. -/
def joinSpace : List String → String
  | [] => ""
  | [w] => w
  | w :: ws => w ++ " " ++ joinSpace ws

/-! ### Rounding (Python `round`, banker's rounding, on exact rationals) -/

/-- Round to the nearest integer, ties to even (Python `round` semantics on exact values). -/
def roundHalfEven (q : ℚ) : ℤ :=
  let f : ℤ := ⌊q⌋
  let r : ℚ := q - f
  if r < 1/2 then f
  else if 1/2 < r then f + 1
  else if f % 2 = 0 then f else f + 1

/-- Python `round(x, 2)` on an exact rational. -/
def round2 (q : ℚ) : ℚ := (roundHalfEven (q * 100) : ℚ) / 100

/-- Python `round(x, 1)` on an exact rational. -/
def round1 (q : ℚ) : ℚ := (roundHalfEven (q * 10) : ℚ) / 10

/-! ### Scoring (src/processing/scoring.py, class KeywordScorer) -/

def VC_BLOG_WEIGHT : ℚ := 10

def YC_COMPANY_WEIGHT : ℚ := 1/2

def EARNINGS_WEIGHT : ℚ := 1

def EARNINGS_CAP : ℕ := 50

def CROSS_TIER_BONUS : ℚ := 50

def NEW_KEYWORD_BONUS : ℚ := 20

def TREND_MULTIPLIER : ℚ := 1/2

/-- `KeywordScorer._calculate_trend`: trend direction and percent change from the
previous-period score (`none` when no prior row exists) and the current score. -/
def calculate_trend (prev_score : Option ℚ) (current_score : ℚ) : String × ℚ :=
  match prev_score with
  | none => ("new", 0)
  | some p =>
      if p = 0 then ("new", 0)
      else
        let percent_change := (current_score - p) / p * 100
        if percent_change > 10 then ("up", percent_change)
        else if percent_change < -10 then ("down", percent_change)
        else ("stable", percent_change)

/-- The `KeywordScore` dataclass. -/
structure KeywordScore where
  term : String
  keyword_id : ℕ
  score : ℚ
  tier1_mentions : ℕ
  tier3_mentions : ℕ
  yc_mentions : ℕ
  vc_sources : List String
  earnings_sources : List String
  first_seen : String
  is_cross_tier : Bool
  trend : String
  percent_change : ℚ
  urls : List String
  deriving Repr, DecidableEq

/-- The score accumulated by `calculate_score` before the trend-momentum bonus:
tier-1 distinct-source weight, YC weight, capped tier-3 weight, cross-tier bonus,
recency bonus, in the source's order of accumulation. -/
def score_before_trend (vc_mentions yc_mentions earnings_mentions : ℕ)
    (vc_sources : List String) (first_seen current_week : String) : ℚ :=
  let score : ℚ := 0
  let unique_vc_sources : ℕ := vc_sources.dedup.length
  let score := score + unique_vc_sources * VC_BLOG_WEIGHT
  let score := score + yc_mentions * YC_COMPANY_WEIGHT
  let tier1_mentions := vc_mentions + yc_mentions
  let tier3_score : ℚ := (min earnings_mentions EARNINGS_CAP : ℕ) * EARNINGS_WEIGHT
  let score := score + tier3_score
  let score :=
    if tier1_mentions > 0 ∧ earnings_mentions > 0 then score + CROSS_TIER_BONUS else score
  let score := if pyStrGe first_seen current_week then score + NEW_KEYWORD_BONUS else score
  score

/-- `KeywordScorer.calculate_score`.  The database read
`self.db.get_previous_week_score(keyword_id, current_week)` is passed in as
`prev_score`; Python `list(set(...))` is modelled as `List.dedup`. -/
def calculate_score (keyword_id : ℕ) (term : String)
    (vc_mentions yc_mentions earnings_mentions : ℕ)
    (vc_sources earnings_sources : List String)
    (first_seen current_week : String) (urls : List String)
    (prev_score : Option ℚ) : KeywordScore :=
  let score := score_before_trend vc_mentions yc_mentions earnings_mentions
      vc_sources first_seen current_week
  let tier1_mentions := vc_mentions + yc_mentions
  let is_cross_tier := decide (tier1_mentions > 0 ∧ earnings_mentions > 0)
  let is_new := pyStrGe first_seen current_week
  let tp := calculate_trend prev_score score
  let trend := tp.1
  let percent_change := tp.2
  let score :=
    if trend = "up" ∧ percent_change > 0 then score + percent_change * TREND_MULTIPLIER
    else score
  { term := term
    keyword_id := keyword_id
    score := round2 score
    tier1_mentions := tier1_mentions
    tier3_mentions := earnings_mentions
    yc_mentions := yc_mentions
    vc_sources := vc_sources.dedup
    earnings_sources := earnings_sources.dedup
    first_seen := first_seen
    is_cross_tier := is_cross_tier
    trend := if is_new then "new" else trend
    percent_change := round1 percent_change
    urls := urls }

/-- The spec's §4.4 scoring formula, written from the spec text: weighted sum with
cap and bonuses, then the previous-period trend computed on the bonus-free score
and the trend bonus re-added to that same score. -/
def spec_score (distinct_tier1_sources tier2_signal_count tier3_count tier1_count : ℕ)
    (is_new_period : Bool) (prev_score : Option ℚ) : ℚ :=
  let base : ℚ := distinct_tier1_sources * 10 + tier2_signal_count * (1/2) +
      (min tier3_count 50 : ℕ) * 1 +
      (if tier1_count > 0 ∧ tier3_count > 0 then 50 else 0) +
      (if is_new_period then 20 else 0)
  let tp := calculate_trend prev_score base
  base + (if tp.1 = "up" then tp.2 * (1/2) else 0)

end KWI

namespace KWI

/-! ### Helper lemmas about rounding and trend -/

theorem roundHalfEven_ge_floor (q : ℚ) : ⌊q⌋ ≤ roundHalfEven q := by
  unfold roundHalfEven
  dsimp only
  split_ifs <;> omega

theorem round1_pos_of_gt_ten {q : ℚ} (h : q > 10) : 0 < round1 q := by
  have hf : (100 : ℤ) ≤ ⌊q * 10⌋ := by
    rw [Int.le_floor]
    push_cast
    nlinarith
  have hr : (100 : ℤ) ≤ roundHalfEven (q * 10) := le_trans hf (roundHalfEven_ge_floor _)
  unfold round1
  have : (100 : ℚ) ≤ (roundHalfEven (q * 10) : ℚ) := by exact_mod_cast hr
  linarith

theorem calculate_trend_up_gt_ten (prev : Option ℚ) (s : ℚ)
    (h : (calculate_trend prev s).1 = "up") : (calculate_trend prev s).2 > 10 := by
  unfold calculate_trend at *
  match prev with
  | none => simp_all
  | some p =>
    by_cases hp : p = 0
    · simp_all
    · simp only [hp, if_false] at h ⊢
      split_ifs at h ⊢ with h1 h2
      · exact h1
      · simp_all
      · simp_all

/-! ### Claim theorems about the scorer -/

/-- Claim C1: with default weights, `calculate_score` returns exactly the spec formula
(distinct tier-1 sources times 10, plus YC mentions times 0.5, plus capped earnings
mentions, plus the 50 cross-tier bonus, plus the 20 new-keyword bonus, plus the
trend-momentum bonus computed two-pass against the previous period score), rounded to
2 decimals; in particular the "embedded payments" scenario (2 distinct tier-1 sources,
34 tier-3 mentions, not new, previous score 80) yields percent change 30, trend up,
and final score 119. -/
theorem calculate_score_matches_spec_formula :
    (∀ (keyword_id : ℕ) (term : String) (vc_mentions yc_mentions earnings_mentions : ℕ)
        (vc_sources earnings_sources : List String) (first_seen current_week : String)
        (urls : List String) (prev_score : Option ℚ),
        (calculate_score keyword_id term vc_mentions yc_mentions earnings_mentions
            vc_sources earnings_sources first_seen current_week urls prev_score).score
          = round2 (spec_score vc_sources.dedup.length yc_mentions earnings_mentions
              (vc_mentions + yc_mentions) (pyStrGe first_seen current_week) prev_score))
    ∧ (calculate_score 1 "embedded payments" 2 0 34 ["a16z", "sequoia"] ["AAPL"]
          "2025-01-01" "2025-01-06" [] (some 80)).percent_change = 30
    ∧ (calculate_score 1 "embedded payments" 2 0 34 ["a16z", "sequoia"] ["AAPL"]
          "2025-01-01" "2025-01-06" [] (some 80)).trend = "up"
    ∧ (calculate_score 1 "embedded payments" 2 0 34 ["a16z", "sequoia"] ["AAPL"]
          "2025-01-01" "2025-01-06" [] (some 80)).score = 119 := by
  refine ⟨?_, ?_, ?_, ?_⟩
  · intro kid term vc yc earn vcs es fs cw urls prev
    have hbase : score_before_trend vc yc earn vcs fs cw
        = (vcs.dedup.length : ℚ) * 10 + (yc : ℚ) * (1/2) + ((min earn 50 : ℕ) : ℚ) * 1
          + (if vc + yc > 0 ∧ earn > 0 then (50 : ℚ) else 0)
          + (if pyStrGe fs cw then (20 : ℚ) else 0) := by
      simp only [score_before_trend, VC_BLOG_WEIGHT, YC_COMPANY_WEIGHT, EARNINGS_WEIGHT,
        EARNINGS_CAP, CROSS_TIER_BONUS, NEW_KEYWORD_BONUS]
      split_ifs <;> ring
    simp only [calculate_score, spec_score, hbase]
    set B := (vcs.dedup.length : ℚ) * 10 + (yc : ℚ) * (1/2) + ((min earn 50 : ℕ) : ℚ) * 1
          + (if vc + yc > 0 ∧ earn > 0 then (50 : ℚ) else 0)
          + (if pyStrGe fs cw then (20 : ℚ) else 0) with hB
    by_cases hup : (calculate_trend prev B).1 = "up"
    · have hgt := calculate_trend_up_gt_ten prev B hup
      rw [if_pos ⟨hup, by linarith⟩, if_pos hup]
      simp only [TREND_MULTIPLIER]
    · rw [if_neg ?_, if_neg hup]
      · ring_nf
      · intro hc
        exact hup hc.1
  · have h1 : pyStrGe "2025-01-01" "2025-01-06" = false := by decide
    have h2 : (["a16z", "sequoia"] : List String).dedup.length = 2 := by decide
    simp only [calculate_score, score_before_trend, calculate_trend, h1, h2,
      Bool.false_eq_true, if_false]
    norm_num [round1, roundHalfEven, VC_BLOG_WEIGHT, YC_COMPANY_WEIGHT, EARNINGS_WEIGHT,
      EARNINGS_CAP, CROSS_TIER_BONUS, NEW_KEYWORD_BONUS, TREND_MULTIPLIER]
  · have h1 : pyStrGe "2025-01-01" "2025-01-06" = false := by decide
    have h2 : (["a16z", "sequoia"] : List String).dedup.length = 2 := by decide
    simp only [calculate_score, score_before_trend, calculate_trend, h1, h2,
      Bool.false_eq_true, if_false]
    norm_num [VC_BLOG_WEIGHT, YC_COMPANY_WEIGHT, EARNINGS_WEIGHT,
      EARNINGS_CAP, CROSS_TIER_BONUS, NEW_KEYWORD_BONUS, TREND_MULTIPLIER]
  · have h1 : pyStrGe "2025-01-01" "2025-01-06" = false := by decide
    have h2 : (["a16z", "sequoia"] : List String).dedup.length = 2 := by decide
    simp only [calculate_score, score_before_trend, calculate_trend, h1, h2,
      Bool.false_eq_true, if_false]
    norm_num [round2, roundHalfEven, VC_BLOG_WEIGHT, YC_COMPANY_WEIGHT, EARNINGS_WEIGHT,
      EARNINGS_CAP, CROSS_TIER_BONUS, NEW_KEYWORD_BONUS, TREND_MULTIPLIER]

end KWI

namespace KWI

/-- Claim C2: the trend computation returns ("new", 0) whenever the previous score is
absent or exactly zero (so division by zero is never attempted), and otherwise returns
percent change (current - previous)/previous*100 with label up iff the change exceeds
+10, down iff below -10, and stable otherwise. -/
theorem calculate_trend_guards_and_thresholds :
    (∀ current : ℚ, calculate_trend none current = ("new", 0))
    ∧ (∀ current : ℚ, calculate_trend (some 0) current = ("new", 0))
    ∧ (∀ p current : ℚ, p ≠ 0 →
        (calculate_trend (some p) current).2 = (current - p) / p * 100
        ∧ ((calculate_trend (some p) current).1 = "up" ↔ (current - p) / p * 100 > 10)
        ∧ ((calculate_trend (some p) current).1 = "down" ↔ (current - p) / p * 100 < -10)
        ∧ ((calculate_trend (some p) current).1 = "stable" ↔
            ¬ (current - p) / p * 100 > 10 ∧ ¬ (current - p) / p * 100 < -10)) := by
  refine ⟨fun c => rfl, fun c => by simp [calculate_trend], fun p c hp => ?_⟩
  simp only [calculate_trend, hp, if_false]
  split_ifs with h1 h2 <;>
    refine ⟨rfl, ?_, ?_, ?_⟩ <;> simp_all <;> first | linarith | (intro h; linarith)

/-- Witness for C2 at previous score 80, current score 104. -/
theorem calculate_trend_guards_and_thresholds_witness :
    (calculate_trend (some 80) 104).1 = "up" ∧ (calculate_trend (some 80) 104).2 = 30 :=
  ⟨((calculate_trend_guards_and_thresholds.2.2 80 104 (by norm_num)).2.1).mpr (by norm_num),
   by rw [(calculate_trend_guards_and_thresholds.2.2 80 104 (by norm_num)).1]; norm_num⟩

/-- Claim C10: when first_seen is on or after the current period start, the returned
trend label is "new" even if a previous-period score exists; if the internally computed
trend against that previous score is "up", the momentum bonus is still added to the
returned score and the (rounded, nonzero) percent change is still reported alongside
the "new" label. -/
theorem new_keyword_overrides_trend_label (keyword_id : ℕ) (term : String)
    (vc_mentions yc_mentions earnings_mentions : ℕ)
    (vc_sources earnings_sources : List String) (first_seen current_week : String)
    (urls : List String) (p : ℚ)
    (hnew : pyStrGe first_seen current_week = true)
    (hup : (calculate_trend (some p) (score_before_trend vc_mentions yc_mentions
        earnings_mentions vc_sources first_seen current_week)).1 = "up") :
    (calculate_score keyword_id term vc_mentions yc_mentions earnings_mentions vc_sources
        earnings_sources first_seen current_week urls (some p)).trend = "new"
    ∧ (calculate_score keyword_id term vc_mentions yc_mentions earnings_mentions vc_sources
        earnings_sources first_seen current_week urls (some p)).percent_change
      = round1 (calculate_trend (some p) (score_before_trend vc_mentions yc_mentions
          earnings_mentions vc_sources first_seen current_week)).2
    ∧ (calculate_score keyword_id term vc_mentions yc_mentions earnings_mentions vc_sources
        earnings_sources first_seen current_week urls (some p)).percent_change ≠ 0
    ∧ (calculate_score keyword_id term vc_mentions yc_mentions earnings_mentions vc_sources
        earnings_sources first_seen current_week urls (some p)).score
      = round2 (score_before_trend vc_mentions yc_mentions earnings_mentions vc_sources
            first_seen current_week
          + (calculate_trend (some p) (score_before_trend vc_mentions yc_mentions
              earnings_mentions vc_sources first_seen current_week)).2 * TREND_MULTIPLIER) := by
  have hgt := calculate_trend_up_gt_ten (some p) _ hup
  refine ⟨?_, ?_, ?_, ?_⟩
  · simp only [calculate_score, hnew, if_true]
  · simp only [calculate_score]
  · simp only [calculate_score]
    have := round1_pos_of_gt_ten hgt
    intro h
    rw [h] at this
    exact lt_irrefl 0 this
  · simp only [calculate_score]
    rw [if_pos ⟨hup, by linarith⟩]

end KWI

namespace KWI

/-- Witness for C10: a keyword first seen on the current period start, with previous
score 80 and raw current score 124, reports trend "new" with percent change 55. -/
theorem new_keyword_overrides_trend_label_witness :
    (calculate_score 1 "agentic ai" 2 0 34 ["a16z", "sequoia"] ["AAPL"]
        "2025-01-06" "2025-01-06" [] (some 80)).trend = "new"
    ∧ (calculate_score 1 "agentic ai" 2 0 34 ["a16z", "sequoia"] ["AAPL"]
        "2025-01-06" "2025-01-06" [] (some 80)).percent_change ≠ 0 := by
  have hb : score_before_trend 2 0 34 ["a16z", "sequoia"] "2025-01-06" "2025-01-06"
      = 124 := by
    have h1 : pyStrGe "2025-01-06" "2025-01-06" = true := by decide
    have h2 : (["a16z", "sequoia"] : List String).dedup.length = 2 := by decide
    simp only [score_before_trend, h1, h2, if_true]
    norm_num [VC_BLOG_WEIGHT, YC_COMPANY_WEIGHT, EARNINGS_WEIGHT, EARNINGS_CAP,
      CROSS_TIER_BONUS, NEW_KEYWORD_BONUS]
  have hup : (calculate_trend (some 80) (score_before_trend 2 0 34 ["a16z", "sequoia"]
      "2025-01-06" "2025-01-06")).1 = "up" := by
    rw [hb]
    norm_num [calculate_trend]
  have h := new_keyword_overrides_trend_label 1 "agentic ai" 2 0 34 ["a16z", "sequoia"]
    ["AAPL"] "2025-01-06" "2025-01-06" [] 80 (by decide) hup
  exact ⟨h.1, h.2.2.1⟩

end KWI

namespace KWI

/-! ### Tier classification (KeywordScorer.get_tier_keywords) -/

/-- First branch condition of the classifier: the stored cross-tier flag. -/
def isValidatedTier (s : KeywordScore) : Bool := s.is_cross_tier

/-- Second branch condition: tier-1 mentions present and zero tier-3 mentions. -/
def isEmergingOnlyCond (s : KeywordScore) : Bool :=
  decide (s.tier1_mentions > 0 ∧ s.tier3_mentions = 0)

/-- Third branch condition: tier-3 mentions exceed tier-1 mentions. -/
def isMainstreamCond (s : KeywordScore) : Bool :=
  decide (s.tier3_mentions > s.tier1_mentions)

/-- Membership in the emerging bucket (second branch or the default fallback). -/
def isEmergingTier (s : KeywordScore) : Bool :=
  !isValidatedTier s && (isEmergingOnlyCond s || !isMainstreamCond s)

/-- Membership in the mainstream bucket. -/
def isMainstreamTier (s : KeywordScore) : Bool :=
  !isValidatedTier s && !isEmergingOnlyCond s && isMainstreamCond s

/-- One iteration of the classifier loop body, appending the score to its bucket
(emerging, validated, mainstream). -/
def tierStep (acc : List KeywordScore × List KeywordScore × List KeywordScore)
    (score : KeywordScore) :
    List KeywordScore × List KeywordScore × List KeywordScore :=
  if isValidatedTier score then (acc.1, acc.2.1 ++ [score], acc.2.2)
  else if isEmergingOnlyCond score then (acc.1 ++ [score], acc.2.1, acc.2.2)
  else if isMainstreamCond score then (acc.1, acc.2.1, acc.2.2 ++ [score])
  else (acc.1 ++ [score], acc.2.1, acc.2.2)

/-- The dict returned by `get_tier_keywords`. -/
structure TieredKeywords where
  emerging : List KeywordScore
  validated : List KeywordScore
  mainstream : List KeywordScore
  deriving Repr, DecidableEq

/-- `KeywordScorer.get_tier_keywords`: bucket every score, then truncate each bucket
to the display limit. -/
def get_tier_keywords (scores : List KeywordScore) (limit : ℕ) : TieredKeywords :=
  let acc := scores.foldl tierStep ([], [], [])
  { emerging := acc.1.take limit
    validated := acc.2.1.take limit
    mainstream := acc.2.2.take limit }

theorem tier_foldl_eq_filters (scores : List KeywordScore)
    (e v m : List KeywordScore) :
    scores.foldl tierStep (e, v, m)
      = (e ++ scores.filter isEmergingTier, v ++ scores.filter isValidatedTier,
         m ++ scores.filter isMainstreamTier) := by
  induction scores generalizing e v m with
  | nil => simp
  | cons s rest ih =>
    cases h1 : isValidatedTier s <;> cases h2 : isEmergingOnlyCond s <;>
        cases h3 : isMainstreamCond s <;>
      simp [List.foldl_cons, List.filter_cons, tierStep, isEmergingTier, isMainstreamTier,
        h1, h2, h3, ih]
end KWI

namespace KWI

/-- Claim C3: the tier classifier partitions scored terms exhaustively and without
overlap before truncation - validated iff cross-tier, else emerging when tier-1
mentions are present with zero tier-3 mentions, else mainstream when tier-3 mentions
exceed tier-1, and every remaining term defaults to emerging - and each bucket is then
truncated to the display limit. -/
theorem tier_partition_exhaustive_nonoverlapping :
    (∀ (scores : List KeywordScore) (limit : ℕ),
        (get_tier_keywords scores limit).validated
            = (scores.filter isValidatedTier).take limit
        ∧ (get_tier_keywords scores limit).emerging
            = (scores.filter isEmergingTier).take limit
        ∧ (get_tier_keywords scores limit).mainstream
            = (scores.filter isMainstreamTier).take limit)
    ∧ (∀ s : KeywordScore,
        (isValidatedTier s).toNat + (isEmergingTier s).toNat + (isMainstreamTier s).toNat
          = 1) := by
  constructor
  · intro scores limit
    simp [get_tier_keywords, tier_foldl_eq_filters]
  · intro s
    cases h1 : isValidatedTier s <;> cases h2 : isEmergingOnlyCond s <;>
        cases h3 : isMainstreamCond s <;>
      simp [isEmergingTier, isMainstreamTier, h1, h2, h3]

end KWI

namespace KWI

/-! ### Mention store (src/database/models.py, class Database)

The SQLite tables become lists of row records; `cursor.lastrowid` for the keywords
table becomes an explicit `nextId` counter, and `date.today()` is threaded through as
an explicit `today` argument. -/

/-- A row of the `keywords` table. -/
structure KeywordRow where
  id : ℕ
  term : String
  normalized_term : String
  first_seen : String
  last_updated : String
  deriving Repr, DecidableEq

/-- A row of the `mentions` table. -/
structure MentionRow where
  keyword_id : ℕ
  source_type : String
  source_name : String
  mention_date : String
  context : String
  url : String
  deriving Repr, DecidableEq

/-- A row of the `processed_sources` table: (source_type, source_identifier,
processed_date). -/
structure ProcessedRow where
  source_type : String
  source_identifier : String
  processed_date : String
  deriving Repr, DecidableEq

/-- The database state. -/
structure Store where
  keywords : List KeywordRow
  mentions : List MentionRow
  processed : List ProcessedRow
  nextId : ℕ
  deriving Repr, DecidableEq

/-- The id under which a term is currently stored (`SELECT id FROM keywords WHERE
term = ?`; the first matching row). -/
def lookupId (s : Store) (term : String) : Option ℕ :=
  (s.keywords.find? (fun k => k.term == term)).map (fun k => k.id)

/-- `Database.get_or_create_keyword`: return the existing id after bumping
`last_updated`, or insert a fresh row with `first_seen = last_updated = today`. -/
def get_or_create_keyword (s : Store) (term : String) (today : String) : ℕ × Store :=
  match s.keywords.find? (fun k => k.term == term) with
  | some row =>
      (row.id,
       { s with keywords := s.keywords.map (fun k =>
           if k.id == row.id then { k with last_updated := today } else k) })
  | none =>
      (s.nextId,
       { s with
           keywords := s.keywords ++
             [{ id := s.nextId, term := term, normalized_term := pyLower term,
                first_seen := today, last_updated := today }]
           nextId := s.nextId + 1 })

/-- `Database.add_mention`: unconditionally insert one mention row. -/
def add_mention (s : Store) (keyword_id : ℕ) (source_type source_name mention_date
    context url : String) : Store :=
  { s with mentions := s.mentions ++
      [{ keyword_id := keyword_id, source_type := source_type, source_name := source_name,
         mention_date := mention_date, context := context, url := url }] }

/-- `Database.is_source_processed`. -/
def is_source_processed (s : Store) (source_type source_identifier : String) : Bool :=
  s.processed.any (fun p =>
    p.source_type == source_type && p.source_identifier == source_identifier)

/-- `Database.mark_source_processed`: `INSERT OR IGNORE` against the UNIQUE
(source_type, source_identifier) constraint. -/
def mark_source_processed (s : Store) (source_type source_identifier today : String) :
    Store :=
  if is_source_processed s source_type source_identifier then s
  else { s with processed := s.processed ++
      [{ source_type := source_type, source_identifier := source_identifier,
         processed_date := today }] }

/-- The per-(keyword, source-type-class) aggregated mention count: the number of
mention rows of a keyword whose source_type satisfies `p`.  The columns of
`Database.get_all_keywords_with_stats` are instances of this. -/
def countMentionsBy (s : Store) (keyword_id : ℕ) (p : String → Bool) : ℕ :=
  (s.mentions.filter (fun m => m.keyword_id == keyword_id && p m.source_type)).length

/-- The (vc_mentions, yc_mentions, earnings_mentions, total_mentions) counts computed
per keyword by `Database.get_all_keywords_with_stats`. -/
def keywordStats (s : Store) (keyword_id : ℕ) : ℕ × ℕ × ℕ × ℕ :=
  (countMentionsBy s keyword_id (fun t => t == "vc_blog"),
   countMentionsBy s keyword_id (fun t => t == "yc_batch"),
   countMentionsBy s keyword_id
     (fun t => t == "earnings_call" || t == "sec_filing" || t == "financial_news"),
   countMentionsBy s keyword_id (fun _ => true))

/-! ### Pipeline document processing (src/main.py, process_posts) -/

/-- An input document record handed to the pipeline by a collaborator scraper. -/
structure Post where
  title : String
  content : String
  source_name : String
  published_date : Option String
  date : Option String
  url : String
  year : String
  quarter : String
  deriving Repr, DecidableEq

/-- Python `a or b` for optional strings (empty string is falsy). -/
def orElseStr (a : Option String) (b : String) : String :=
  match a with
  | some s => if s.isEmpty then b else s
  | none => b

/-- The body of the inner loop of `process_posts` for one extracted
(keyword, count) pair: skip counts below 1, otherwise get-or-create the keyword and
record one mention. -/
def processKeywordStep (source_type source_name mention_date context url today : String)
    (s : Store) (kc : String × ℕ) : Store :=
  if kc.2 < 1 then s
  else
    let r := get_or_create_keyword s kc.1 today
    add_mention r.2 r.1 source_type source_name mention_date context url

/-- `process_posts` on one post: extract keywords from title+content, record one
mention per extracted keyword, then mark the source processed.  The extractor is the
injected `KeywordExtractor`, modelled as a function from text to (keyword, count)
pairs; `now`/`today` are the wall-clock date reads. -/
def processPost (extractor : String → List (String × ℕ)) (s : Store) (post : Post)
    (source_type now today : String) : Store :=
  let text := post.title ++ " " ++ post.content
  let keywords := extractor text
  let mention_date := orElseStr post.published_date (orElseStr post.date now)
  let url := post.url
  let context := if text.isEmpty then "" else text.take 500
  let s1 := keywords.foldl
    (processKeywordStep source_type post.source_name mention_date context url today) s
  let identifier :=
    if source_type == "vc_blog" then url
    else post.source_name ++ "-" ++ post.year ++ "-Q" ++ post.quarter
  mark_source_processed s1 source_type identifier today

/-- `process_posts` over a list of posts. -/
def process_posts (extractor : String → List (String × ℕ)) (s : Store)
    (posts : List Post) (source_type now today : String) : Store :=
  posts.foldl (fun acc p => processPost extractor acc p source_type now today) s

end KWI

namespace KWI

/-! ### Lemmas: keyword lookup under store operations -/

theorem lookupId_add_mention (s : Store) (kid : ℕ)
    (source_type source_name mention_date context url t : String) :
    lookupId (add_mention s kid source_type source_name mention_date context url) t
      = lookupId s t := rfl

theorem lookupId_mark_source_processed (s : Store) (a b d t : String) :
    lookupId (mark_source_processed s a b d) t = lookupId s t := by
  unfold mark_source_processed
  split <;> rfl

theorem countMentionsBy_mark_source_processed (s : Store) (a b d : String) (kid : ℕ)
    (p : String → Bool) :
    countMentionsBy (mark_source_processed s a b d) kid p = countMentionsBy s kid p := by
  unfold mark_source_processed
  split <;> rfl

/-- Effect of `get_or_create_keyword` on any term lookup: the processed term becomes
present (fresh id if it was absent), every other lookup is unchanged. -/
theorem lookupId_get_or_create (s : Store) (term today t : String) :
    lookupId (get_or_create_keyword s term today).2 t
      = if lookupId s t = none ∧ t = term then some s.nextId else lookupId s t := by
  unfold get_or_create_keyword
  cases hfind : s.keywords.find? (fun k => k.term == term) with
  | some row =>
    have hne : ¬ (lookupId s t = none ∧ t = term) := by
      rintro ⟨h1, rfl⟩
      unfold lookupId at h1
      rw [hfind] at h1
      simp at h1
    rw [if_neg hne]
    unfold lookupId
    dsimp only
    rw [List.find?_map]
    have hcomp : ((fun k : KeywordRow => k.term == t) ∘
        (fun k => if k.id == row.id then { k with last_updated := today } else k))
        = (fun k : KeywordRow => k.term == t) := by
      funext k
      by_cases h : k.id == row.id <;> simp [Function.comp, h]
    rw [hcomp, Option.map_map]
    congr 1
    funext k
    by_cases h : k.id == row.id <;> simp [Function.comp, h]
  | none =>
    unfold lookupId
    dsimp only
    rw [List.find?_append]
    by_cases ht : t = term
    · subst ht
      rw [hfind]
      simp [List.find?]
    · have hterm : (term == t) = false := by
        simp only [beq_eq_false_iff_ne, ne_eq]
        exact fun h => ht h.symm
      simp [List.find?, hterm, ht]

end KWI

namespace KWI

/-- After get-or-create, the processed term is stored under the returned id. -/
theorem lookupId_get_or_create_self (s : Store) (term today : String) :
    lookupId (get_or_create_keyword s term today).2 term
      = some (get_or_create_keyword s term today).1 := by
  rw [lookupId_get_or_create]
  cases hl : lookupId s term with
  | none =>
    rw [if_pos ⟨rfl, rfl⟩]
    unfold get_or_create_keyword
    unfold lookupId at hl
    cases hfind : s.keywords.find? (fun k => k.term == term) with
    | some row => rw [hfind] at hl; simp at hl
    | none => rfl
  | some i =>
    rw [if_neg (by simp)]
    unfold get_or_create_keyword
    unfold lookupId at hl
    cases hfind : s.keywords.find? (fun k => k.term == term) with
    | some row => rw [hfind] at hl; simp at hl; simp [hl]
    | none => rw [hfind] at hl; simp at hl

theorem lookupId_processKeywordStep_stable
    (source_type source_name mention_date context url today : String)
    (s : Store) (kc : String × ℕ) (t : String) (i : ℕ)
    (h : lookupId s t = some i) :
    lookupId (processKeywordStep source_type source_name mention_date context url today
      s kc) t = some i := by
  unfold processKeywordStep
  split
  · exact h
  · rw [lookupId_add_mention, lookupId_get_or_create, if_neg (by simp [h])]
    exact h

theorem lookupId_foldSteps_stable
    (source_type source_name mention_date context url today : String)
    (kws : List (String × ℕ)) (s : Store) (t : String) (i : ℕ)
    (h : lookupId s t = some i) :
    lookupId (kws.foldl (processKeywordStep source_type source_name mention_date context
      url today) s) t = some i := by
  induction kws generalizing s with
  | nil => exact h
  | cons kc rest ih =>
    rw [List.foldl_cons]
    exact ih _ (lookupId_processKeywordStep_stable _ _ _ _ _ _ _ _ _ _ h)

/-- Every (keyword, count) pair with count at least 1 is present in the keywords table
after the extraction loop runs. -/
theorem lookupId_foldSteps_present
    (source_type source_name mention_date context url today : String)
    (kws : List (String × ℕ)) (s : Store) (t : String) (c : ℕ)
    (hmem : (t, c) ∈ kws) (hc : 1 ≤ c) :
    ∃ i, lookupId (kws.foldl (processKeywordStep source_type source_name mention_date
      context url today) s) t = some i := by
  induction kws generalizing s with
  | nil => cases hmem
  | cons kc rest ih =>
    rw [List.foldl_cons]
    rcases List.mem_cons.mp hmem with heq | hmemRest
    · have hstep : ∃ i, lookupId (processKeywordStep source_type source_name mention_date
          context url today s kc) t = some i := by
        unfold processKeywordStep
        have hkc1 : kc.1 = t := by rw [← heq]
        have hkc2 : kc.2 = c := by rw [← heq]
        rw [if_neg (by omega)]
        rw [lookupId_add_mention, hkc1, lookupId_get_or_create_self]
        exact ⟨_, rfl⟩
      rcases hstep with ⟨i, hi⟩
      exact ⟨i, lookupId_foldSteps_stable _ _ _ _ _ _ _ _ _ _ hi⟩
    · exact ih _ hmemRest

end KWI

namespace KWI

theorem countMentionsBy_get_or_create (s : Store) (term today : String) (kid : ℕ)
    (p : String → Bool) :
    countMentionsBy (get_or_create_keyword s term today).2 kid p
      = countMentionsBy s kid p := by
  unfold get_or_create_keyword
  cases s.keywords.find? (fun k => k.term == term) <;> rfl

theorem countMentionsBy_add_mention (s : Store) (kid' : ℕ)
    (source_type source_name mention_date context url : String) (kid : ℕ)
    (p : String → Bool) :
    countMentionsBy (add_mention s kid' source_type source_name mention_date context url)
        kid p
      = countMentionsBy s kid p + (if kid' == kid && p source_type then 1 else 0) := by
  unfold add_mention countMentionsBy
  dsimp only
  rw [List.filter_append, List.length_append]
  congr 1
  by_cases h : (kid' == kid && p source_type) = true <;> simp [List.filter, h]

theorem countMentionsBy_processKeywordStep
    (source_type source_name mention_date context url today : String)
    (s : Store) (kc : String × ℕ) (kid : ℕ) (p : String → Bool) :
    countMentionsBy (processKeywordStep source_type source_name mention_date context url
        today s kc) kid p
      = countMentionsBy s kid p
        + (if 1 ≤ kc.2 && ((get_or_create_keyword s kc.1 today).1 == kid)
              && p source_type then 1 else 0) := by
  unfold processKeywordStep
  split
  · have h1 : (1 ≤ kc.2) = False := by simp; omega
    simp [h1]
  · rw [countMentionsBy_add_mention, countMentionsBy_get_or_create]
    have h1 : (1 ≤ kc.2) = True := by simp; omega
    simp [h1]

/-- Aggregated-count effect of the extraction loop: each (keyword, count) pair with
count at least 1 contributes exactly one mention row, recorded under the id the
keyword ends up stored under. -/
theorem countMentionsBy_foldSteps
    (source_type source_name mention_date context url today : String)
    (kws : List (String × ℕ)) (s : Store) (kid : ℕ) (p : String → Bool) :
    countMentionsBy (kws.foldl (processKeywordStep source_type source_name mention_date
        context url today) s) kid p
      = countMentionsBy s kid p
        + kws.countP (fun kc => 1 ≤ kc.2
            && (lookupId (kws.foldl (processKeywordStep source_type source_name
                  mention_date context url today) s) kc.1 == some kid)
            && p source_type) := by
  induction kws generalizing s with
  | nil => simp
  | cons kc rest ih =>
    rw [List.foldl_cons, ih, List.countP_cons, countMentionsBy_processKeywordStep]
    by_cases hc : 1 ≤ kc.2
    · have hlook : lookupId (rest.foldl (processKeywordStep source_type source_name
          mention_date context url today) (processKeywordStep source_type source_name
          mention_date context url today s kc)) kc.1
          = some (get_or_create_keyword s kc.1 today).1 := by
        apply lookupId_foldSteps_stable
        unfold processKeywordStep
        rw [if_neg (by omega), lookupId_add_mention, lookupId_get_or_create_self]
      rw [hlook]
      have hc' : (1 ≤ kc.2) = True := by simp; omega
      simp [hc']
      omega
    · have hc' : (1 ≤ kc.2) = False := by simp; omega
      simp [hc']

end KWI

namespace KWI

theorem lookupId_processPost_stable (extractor : String → List (String × ℕ)) (s : Store)
    (post : Post) (source_type now today t : String) (i : ℕ)
    (h : lookupId s t = some i) :
    lookupId (processPost extractor s post source_type now today) t = some i := by
  unfold processPost
  rw [lookupId_mark_source_processed]
  exact lookupId_foldSteps_stable _ _ _ _ _ _ _ _ _ _ h

theorem lookupId_processPost_present (extractor : String → List (String × ℕ)) (s : Store)
    (post : Post) (source_type now today t : String) (c : ℕ)
    (hmem : (t, c) ∈ extractor (post.title ++ " " ++ post.content)) (hc : 1 ≤ c) :
    ∃ i, lookupId (processPost extractor s post source_type now today) t = some i := by
  unfold processPost
  rcases lookupId_foldSteps_present _ post.source_name
    (orElseStr post.published_date (orElseStr post.date now))
    (if (post.title ++ " " ++ post.content).isEmpty then ""
     else (post.title ++ " " ++ post.content).take 500)
    post.url today _ s t c hmem hc with ⟨i, hi⟩
  exact ⟨i, by rw [lookupId_mark_source_processed]; exact hi⟩

theorem countMentionsBy_processPost (extractor : String → List (String × ℕ)) (s : Store)
    (post : Post) (source_type now today : String) (kid : ℕ) (p : String → Bool) :
    countMentionsBy (processPost extractor s post source_type now today) kid p
      = countMentionsBy s kid p
        + (extractor (post.title ++ " " ++ post.content)).countP
            (fun kc => 1 ≤ kc.2
              && (lookupId (processPost extractor s post source_type now today) kc.1
                    == some kid)
              && p source_type) := by
  unfold processPost
  rw [countMentionsBy_mark_source_processed, countMentionsBy_foldSteps]
  congr 1
  apply List.countP_congr
  intro kc _
  rw [lookupId_mark_source_processed]

/-- Claim C4: running the extraction-and-record pass twice over the same document
doubles every per-(keyword, source-type-class) aggregated mention count (the pass
itself never consults the processed marker). -/
theorem process_posts_twice_doubles_counts (extractor : String → List (String × ℕ))
    (s : Store) (post : Post) (source_type now today : String) (kid : ℕ)
    (p : String → Bool) :
    countMentionsBy (process_posts extractor
        (process_posts extractor s [post] source_type now today)
        [post] source_type now today) kid p
      + countMentionsBy s kid p
      = 2 * countMentionsBy (process_posts extractor s [post] source_type now today)
          kid p := by
  simp only [process_posts, List.foldl_cons, List.foldl_nil]
  rw [countMentionsBy_processPost, countMentionsBy_processPost]
  have hAB : (extractor (post.title ++ " " ++ post.content)).countP
        (fun kc => 1 ≤ kc.2
          && (lookupId (processPost extractor
                (processPost extractor s post source_type now today)
                post source_type now today) kc.1 == some kid)
          && p source_type)
      = (extractor (post.title ++ " " ++ post.content)).countP
        (fun kc => 1 ≤ kc.2
          && (lookupId (processPost extractor s post source_type now today) kc.1
                == some kid)
          && p source_type) := by
    apply List.countP_congr
    intro kc hmem
    by_cases hc : 1 ≤ kc.2
    · rcases lookupId_processPost_present extractor s post source_type now today kc.1
        kc.2 (by simpa using hmem) hc with ⟨i, hi⟩
      rw [hi, lookupId_processPost_stable extractor _ post source_type now today kc.1 i hi]
    · have hc' : (1 ≤ kc.2) = False := by simp; omega
      simp [hc']
  rw [hAB]
  omega

end KWI

namespace KWI

theorem is_source_processed_after_mark (s : Store) (st sid d : String) :
    is_source_processed (mark_source_processed s st sid d) st sid = true := by
  unfold mark_source_processed
  by_cases h : is_source_processed s st sid
  · simpa [h] using h
  · simp only [h, Bool.false_eq_true, if_false]
    unfold is_source_processed
    simp [List.any_append]

/-- Claim C5: `mark_source_processed` is idempotent (a second call with the same
(source_type, identifier) is a no-op), it keeps each identifier marked at most once,
and `add_mention` never fails on duplicates - it always appends exactly one new
mention row. -/
theorem mark_processed_idempotent_add_mention_total :
    (∀ (s : Store) (st sid d1 d2 : String),
        mark_source_processed (mark_source_processed s st sid d1) st sid d2
          = mark_source_processed s st sid d1)
    ∧ (∀ (s : Store) (st sid d st' sid' : String),
        s.processed.countP
            (fun r => r.source_type == st' && r.source_identifier == sid') ≤ 1 →
        (mark_source_processed s st sid d).processed.countP
            (fun r => r.source_type == st' && r.source_identifier == sid') ≤ 1)
    ∧ (∀ (s : Store) (kid : ℕ) (a b c d e : String),
        (add_mention s kid a b c d e).mentions
          = s.mentions ++
              [{ keyword_id := kid, source_type := a, source_name := b,
                 mention_date := c, context := d, url := e }]) := by
  refine ⟨?_, ?_, fun s kid a b c d e => rfl⟩
  · intro s st sid d1 d2
    have h2 := is_source_processed_after_mark s st sid d1
    set s1 := mark_source_processed s st sid d1 with hs1
    unfold mark_source_processed
    simp [h2]
  · intro s st sid d st' sid' h
    unfold mark_source_processed
    by_cases hp : is_source_processed s st sid
    · simpa [hp] using h
    · simp only [hp, Bool.false_eq_true, if_false]
      rw [List.countP_append]
      by_cases hmatch : (st == st' && sid == sid') = true
      · have h1 : st' = st := by
          simp only [Bool.and_eq_true, beq_iff_eq] at hmatch
          exact hmatch.1.symm
        have h2 : sid' = sid := by
          simp only [Bool.and_eq_true, beq_iff_eq] at hmatch
          exact hmatch.2.symm
        have hzero : s.processed.countP
            (fun r => r.source_type == st' && r.source_identifier == sid') = 0 := by
          rw [List.countP_eq_zero]
          intro r hr
          unfold is_source_processed at hp
          rw [Bool.not_eq_true, List.any_eq_false] at hp
          have hr' := hp r hr
          rw [h1, h2]
          exact hr'
        have hone : List.countP
            (fun r => r.source_type == st' && r.source_identifier == sid')
            ([{ source_type := st, source_identifier := sid, processed_date := d }]
              : List ProcessedRow)
            = 1 := by
          simp [List.countP, List.countP.go, h1, h2]
        omega
      · have hzero : List.countP
            (fun r => r.source_type == st' && r.source_identifier == sid')
            ([{ source_type := st, source_identifier := sid, processed_date := d }]
              : List ProcessedRow)
            = 0 := by
          simp only [Bool.not_eq_true] at hmatch
          simp [List.countP, List.countP.go, hmatch]
        omega

/-- Witness for C5 on a concrete store. -/
theorem mark_processed_idempotent_add_mention_total_witness :
    mark_source_processed
        (mark_source_processed (Store.mk [] [] [] 0) "vc_blog" "u1" "2025-01-01")
        "vc_blog" "u1" "2025-01-02"
      = mark_source_processed (Store.mk [] [] [] 0) "vc_blog" "u1" "2025-01-01"
    ∧ (mark_source_processed (Store.mk [] [] [] 0) "vc_blog" "u1"
          "2025-01-01").processed.countP
        (fun r => r.source_type == "vc_blog" && r.source_identifier == "u1") ≤ 1 :=
  ⟨mark_processed_idempotent_add_mention_total.1 (Store.mk [] [] [] 0) "vc_blog" "u1"
      "2025-01-01" "2025-01-02",
   mark_processed_idempotent_add_mention_total.2.1 (Store.mk [] [] [] 0) "vc_blog" "u1"
      "2025-01-01" "vc_blog" "u1" (by decide)⟩

end KWI

namespace KWI

/-! ### Keyword-row lifecycle (Database.get_or_create_keyword) -/

/-- The keywords-table row currently stored for a term. -/
def findRow (s : Store) (term : String) : Option KeywordRow :=
  s.keywords.find? (fun k => k.term == term)

theorem find?_map_term_pred (t : String) (g : KeywordRow → KeywordRow)
    (hg : ∀ k, (g k).term = k.term) (l : List KeywordRow) :
    (l.map g).find? (fun k => k.term == t)
      = Option.map g (l.find? (fun k => k.term == t)) := by
  rw [List.find?_map]
  have hcomp : ((fun k : KeywordRow => k.term == t) ∘ g)
      = (fun k : KeywordRow => k.term == t) := by
    funext k
    simp [Function.comp, hg]
  rw [hcomp]

theorem findRow_get_or_create_found (s : Store) (term today : String) (k : KeywordRow)
    (h : findRow s term = some k) :
    findRow (get_or_create_keyword s term today).2 term
      = some { k with last_updated := today } := by
  unfold findRow at h ⊢
  unfold get_or_create_keyword
  rw [h]
  dsimp only
  rw [find?_map_term_pred term _ (fun r => by split <;> rfl) s.keywords, h]
  simp

theorem findRow_get_or_create_new (s : Store) (term today : String)
    (h : findRow s term = none) :
    findRow (get_or_create_keyword s term today).2 term
      = some { id := s.nextId, term := term, normalized_term := pyLower term,
               first_seen := today, last_updated := today } := by
  unfold findRow at h ⊢
  unfold get_or_create_keyword
  rw [h]
  dsimp only
  rw [List.find?_append, h]
  simp [List.find?]

/-- Recording one mention of a term on a given day, as the inner loop of
`process_posts` does it: get-or-create the keyword, then insert the mention. -/
def recordTermMention (term source_type source_name mention_date context url : String)
    (s : Store) (today : String) : Store :=
  processKeywordStep source_type source_name mention_date context url today s (term, 1)

theorem findRow_add_mention (s : Store) (kid : ℕ) (a b c d e term : String) :
    findRow (add_mention s kid a b c d e) term = findRow s term := rfl

theorem findRow_recordTermMention_found (term st sn md cx u d : String) (s : Store)
    (k : KeywordRow) (h : findRow s term = some k) :
    findRow (recordTermMention term st sn md cx u s d) term
      = some { k with last_updated := d } := by
  unfold recordTermMention processKeywordStep
  rw [if_neg (by omega)]
  rw [findRow_add_mention]
  exact findRow_get_or_create_found s term d k h

theorem findRow_recordTermMention_new (term st sn md cx u d : String) (s : Store)
    (h : findRow s term = none) :
    findRow (recordTermMention term st sn md cx u s d) term
      = some { id := s.nextId, term := term, normalized_term := pyLower term,
               first_seen := d, last_updated := d } := by
  unfold recordTermMention processKeywordStep
  rw [if_neg (by omega)]
  rw [findRow_add_mention]
  exact findRow_get_or_create_new s term d h

theorem findRow_fold_record (term st sn md cx u : String) (ds : List String) :
    ∀ (s : Store) (k : KeywordRow), findRow s term = some k →
    findRow (ds.foldl (recordTermMention term st sn md cx u) s) term
      = some { k with last_updated := ds.getLastD k.last_updated } := by
  induction ds with
  | nil =>
    intro s k h
    simpa using h
  | cons d ds ih =>
    intro s k h
    rw [List.foldl_cons,
      ih _ _ (findRow_recordTermMention_found term st sn md cx u d s k h)]
    cases ds with
    | nil => simp
    | cons e es =>
      cases h' : (e :: es).getLast? with
      | none =>
        rw [List.getLast?_eq_none_iff] at h'
        exact (List.cons_ne_nil e es h').elim
      | some x => rfl

theorem codepointLt_self (l : List Char) : codepointLt l l = false := by
  induction l with
  | nil => rfl
  | cons c cs ih => simp [codepointLt, ih]

theorem pyStrGe_refl (a : String) : pyStrGe a a = true := by
  simp [pyStrGe, pyStrLt, codepointLt_self]

end KWI

namespace KWI

/-- Claim C9: a Term row's first_seen is set at creation to the date its first mention
is recorded and never changes on later calls (so it equals the earliest recording date
when recordings happen in date order, and in particular is never moved later), while
last_updated is bumped to the recording date on every new mention. -/
theorem first_seen_immutable_last_updated_bumped :
    (∀ (s : Store) (term today : String) (k : KeywordRow), k ∈ s.keywords →
        ∃ k', k' ∈ (get_or_create_keyword s term today).2.keywords
          ∧ k'.id = k.id ∧ k'.term = k.term ∧ k'.first_seen = k.first_seen)
    ∧ (∀ (term st sn md cx u : String) (s : Store) (d0 : String) (ds : List String),
        findRow s term = none →
        List.Pairwise (fun a b => pyStrGe b a = true) (d0 :: ds) →
        ∃ k, findRow ((ds.foldl (recordTermMention term st sn md cx u))
              (recordTermMention term st sn md cx u s d0)) term = some k
          ∧ k.first_seen = d0
          ∧ (∀ d ∈ d0 :: ds, pyStrGe d k.first_seen = true)
          ∧ k.last_updated = ds.getLastD d0) := by
  constructor
  · intro s term today k hk
    unfold get_or_create_keyword
    cases hfind : s.keywords.find? (fun r => r.term == term) with
    | some row =>
      refine ⟨if k.id == row.id then { k with last_updated := today } else k,
        ?_, ?_, ?_, ?_⟩
      · dsimp only
        exact List.mem_map_of_mem _ hk
      · split <;> rfl
      · split <;> rfl
      · split <;> rfl
    | none =>
      exact ⟨k, by dsimp only; exact List.mem_append_left _ hk, rfl, rfl, rfl⟩
  · intro term st sn md cx u s d0 ds h hsorted
    have h0 := findRow_recordTermMention_new term st sn md cx u d0 s h
    have hfold := findRow_fold_record term st sn md cx u ds _ _ h0
    refine ⟨_, hfold, rfl, ?_, rfl⟩
    intro d hd
    rcases List.mem_cons.mp hd with rfl | hd'
    · exact pyStrGe_refl d
    · exact (List.pairwise_cons.mp hsorted).1 d hd'

/-- Witness for C9: a term created on 2025-01-02 and mentioned again on 2025-01-05
keeps first_seen 2025-01-02 and has last_updated 2025-01-05. -/
theorem first_seen_immutable_last_updated_bumped_witness :
    ∃ k, findRow ((["2025-01-05"].foldl
            (recordTermMention "agentic ai" "vc_blog" "a16z" "2025-01-01" "ctx" "u"))
          (recordTermMention "agentic ai" "vc_blog" "a16z" "2025-01-01" "ctx" "u"
            (Store.mk [] [] [] 0) "2025-01-02")) "agentic ai" = some k
      ∧ k.first_seen = "2025-01-02"
      ∧ (∀ d ∈ ["2025-01-02", "2025-01-05"], pyStrGe d k.first_seen = true)
      ∧ k.last_updated = ["2025-01-05"].getLastD "2025-01-02" :=
  first_seen_immutable_last_updated_bumped.2 "agentic ai" "vc_blog" "a16z" "2025-01-01"
    "ctx" "u" (Store.mk [] [] [] 0) "2025-01-02" ["2025-01-05"] rfl (by decide)

end KWI

namespace KWI

/-! ### Keyword extraction (src/processing/keyword_extraction.py, KeywordExtractor) -/

/-- The extraction configuration imported from the config module. -/
structure ExtractConfig where
  minKeywordLength : ℕ
  maxKeywordLength : ℕ
  filterPhrases : List String
  deriving Repr, DecidableEq

/-- Modelled from the spec: the constants MIN_KEYWORD_LENGTH, MAX_KEYWORD_LENGTH and
FILTER_PHRASES are imported from a config module that is not part of the available
source tree; spec section 4.1 gives the default word-count bounds 2-4, and
FILTER_PHRASES is a curated stoplist of domain-generic jargon whose exact entries the
spec does not enumerate (theorems below quantify over them). -/
def defaultExtractConfig : ExtractConfig :=
  { minKeywordLength := 2, maxKeywordLength := 4, filterPhrases := [] }

/-- The functional stopword set of `_is_valid_phrase`. -/
def stopwords : List String :=
  ["the", "a", "an", "and", "or", "but", "in", "on", "at", "to", "for",
   "of", "with", "by", "from", "as", "is", "was", "are", "were", "been",
   "be", "have", "has", "had", "do", "does", "did", "will", "would",
   "could", "should", "may", "might", "must", "shall", "can", "this",
   "that", "these", "those", "it", "its", "we", "our", "you", "your",
   "they", "their", "he", "she", "him", "her", "i", "my", "me"]

/-- Social media and website marker substrings. -/
def socialTerms : List String :=
  ["share", "linkedin", "facebook", "twitter", "post", "click",
   "subscribe", "newsletter", "email", "sign up", "read more",
   "learn more", "view all", "see more", "follow", "like"]

/-- VC firm names and generic company-term substrings. -/
def vcFirms : List String :=
  ["sequoia", "greylock", "andreessen", "a16z", "bessemer", "accel",
   "benchmark", "kleiner", "nfx", "lightspeed", "index ventures",
   "first round", "capital", "ventures", "partners", "portfolio"]

/-- The curated "too generic" exact-phrase list. -/
def genericTerms : List String :=
  ["new way", "first time", "next step", "last year", "next year",
   "more than", "less than", "most important", "new era",
   "big data", "best practices", "key takeaways", "main point",
   "related topics", "funding announcement", "business users",
   "ai future", "ai era", "news article", "blog post",
   "where ai", "just the beginning", "little impact", "ai remains",
   "ai trade", "says ai", "nearly 70", "top shape"]

/-- Financial news noise substrings. -/
def newsNoise : List String :=
  ["yahoo finance", "marketwatch", "cnbc", "reuters", "bloomberg",
   "seeking alpha", "wall street", "stock market", "market cap",
   "stock price", "share price", "stock dips", "stock rises",
   "stock falls", "stock gains", "stocks to watch", "trading day",
   "market close", "market open", "earnings report", "earnings call",
   "quarterly results", "fiscal quarter", "revenue growth",
   "upbeat outlook", "costco dips", "broadcom stock", "money challenge",
   "finance earnings", "finance video", "analyst rating", "buy rating",
   "hold rating", "sell rating", "price target", "ticker symbol",
   "morning squawk", "five key", "key things", "weak revenue",
   "down ai", "ai stocks", "new year", "quarterly earnings",
   "earnings preview", "earnings news", "google news", "news search",
   "trader trafigura", "kratos defense", "venezuela oil"]

/-- The alternatives of the `\b(stock|shares|...)\b` ticker-noise pattern. -/
def stockTokens : List String :=
  ["stock", "shares", "price", "dips", "rises", "falls", "gains", "jumps", "drops"]

/-- Name titles excluded from the person-name heuristic. -/
def commonTitles : List String := ["mr", "mrs", "ms", "dr", "prof"]

/-- Word-boundary search for one literal token: regex `\btok\b` somewhere in the text.
The Bool argument carries whether the previous character was a non-word character
(true at the start of the text). -/
def boundaryHit (tok : List Char) : Bool → List Char → Bool
  | _, [] => false
  | prevOk, c :: rest =>
      (prevOk && tok.isPrefixOf (c :: rest)
        && (match (c :: rest).drop tok.length with
            | [] => true
            | d :: _ => !isWordChar d))
      || boundaryHit tok (!isWordChar c) rest

/-- `re.search` of `\btok\b` in a string. -/
def hasWordToken (tok : String) (s : String) : Bool := boundaryHit tok.data true s.data

/-- `re.sub(r'^[^\w]+|[^\w]+$', '', s)`: strip leading and trailing non-word runs. -/
def pyStripNonWord (s : String) : String :=
  String.mk (((s.data.dropWhile (fun c => !isWordChar c)).reverse.dropWhile
    (fun c => !isWordChar c)).reverse)

/-- `KeywordExtractor._clean_phrase`: collapse whitespace, strip edge punctuation,
lowercase every word except all-caps tokens of at most 5 characters. -/
def cleanPhrase (phrase : String) : String :=
  let p1 := joinSpace (pySplit phrase)
  let p2 := pyStripNonWord p1
  joinSpace ((pySplit p2).map (fun w =>
    if pyIsUpper w && decide (w.data.length ≤ 5) then w else pyLower w))

/-- The person-name heuristic of `_is_valid_phrase`: 2-3 title-case words, none
all-caps, first word not a title, is rejected as a probable personal name. -/
def looksLikeNameReject (words : List String) : Bool :=
  if words.length == 2 || words.length == 3 then
    let looks := (words.filter (fun w => !w.isEmpty && !pyIsUpper w)).all
      (fun w => asciiIsUpper (w.data.headD ' ')
        && (w.data.length == 1 || pyIsLower (String.mk (w.data.drop 1))))
    if looks && !(words.any pyIsUpper) then
      !(commonTitles.contains (pyLower (words.headD "")))
    else false
  else false

/-- `KeywordExtractor._is_valid_phrase`: the ordered noise filter chain.  Indexing
`words[0]`/`words[-1]` is modelled with a default (unreachable whenever the
configured minimum word count is at least 1, as it is in the spec defaults). -/
def isValidPhrase (cfg : ExtractConfig) (phrase : String) : Bool :=
  if phrase.isEmpty then false
  else
    let words := pySplit phrase
    let phrase_lower := pyLower phrase
    if words.length < cfg.minKeywordLength || words.length > cfg.maxKeywordLength then
      false
    else if (cfg.filterPhrases.map pyLower).contains phrase_lower then false
    else if stopwords.contains (pyLower (words.headD "")) then false
    else if stopwords.contains (pyLower (words.getLastD "")) then false
    else if (words.filter (fun w => !stopwords.contains (pyLower w))).length < 1 then
      false
    else if socialTerms.any (fun t => pyContains phrase_lower t) then false
    else if vcFirms.any (fun f => pyContains phrase_lower f) then false
    else if words.all pyIsDigit then false
    else if phrase.data.length < 5 then false
    else if words.all (fun w => w.data.length ≤ 1) then false
    else if genericTerms.contains phrase_lower then false
    else if newsNoise.any (fun t => pyContains phrase_lower t) then false
    else if stockTokens.any (fun t => hasWordToken t phrase_lower) then false
    else if looksLikeNameReject words then false
    else true

end KWI

namespace KWI

/-! ### The `_extract_tech_patterns` regex library

Every pattern in the source has the form `\b( ... )\b` where the body is a sequence
of literal words, `\w+`, `\w*` and `\s+`.  Because the word-character and whitespace
classes are disjoint, greedy maximal-munch matching is exact for these patterns, and
`re.findall` is a left-to-right scan emitting non-overlapping matches. -/

/-- One token of a tech-pattern regex body. -/
inductive RTok where
  | lit : String → RTok
  | wplus : RTok
  | wstar : RTok
  | splus : RTok
  deriving Repr, DecidableEq

/-- Match a token sequence at the head of the text by maximal munch; returns the
consumed characters and the rest. -/
def matchToks : List RTok → List Char → Option (List Char × List Char)
  | [], l => some ([], l)
  | RTok.lit s :: ts, l =>
      if s.data.isPrefixOf l then
        (matchToks ts (l.drop s.data.length)).map (fun cr => (s.data ++ cr.1, cr.2))
      else none
  | RTok.wplus :: ts, l =>
      let run := l.takeWhile isWordChar
      if run.isEmpty then none
      else (matchToks ts (l.drop run.length)).map (fun cr => (run ++ cr.1, cr.2))
  | RTok.wstar :: ts, l =>
      let run := l.takeWhile isWordChar
      (matchToks ts (l.drop run.length)).map (fun cr => (run ++ cr.1, cr.2))
  | RTok.splus :: ts, l =>
      let run := l.takeWhile (fun c => pyIsSpace c)
      if run.isEmpty then none
      else (matchToks ts (l.drop run.length)).map (fun cr => (run ++ cr.1, cr.2))

/-- `re.findall` scan: at each position where the start boundary holds, try the
pattern; on success with a valid end boundary, emit the match and continue after it.
The fuel argument bounds the recursion (text length suffices). -/
def findAllAux (toks : List RTok) : ℕ → Bool → List Char → List String
  | 0, _, _ => []
  | _, _, [] => []
  | fuel + 1, prevOk, c :: rest =>
      match (if prevOk then matchToks toks (c :: rest) else none) with
      | some cr =>
          if cr.1.isEmpty then findAllAux toks fuel (!isWordChar c) rest
          else
            match cr.2 with
            | [] => [String.mk cr.1]
            | d :: _ =>
                if isWordChar d then findAllAux toks fuel (!isWordChar c) rest
                else String.mk cr.1 ::
                  findAllAux toks fuel (!isWordChar (cr.1.getLastD ' ')) cr.2
      | none => findAllAux toks fuel (!isWordChar c) rest

/-- `re.findall(pattern, s)` for one tech pattern. -/
def reFindAll (toks : List RTok) (s : String) : List String :=
  findAllAux toks (s.data.length + 1) true s.data

/-- The pattern library of `_extract_tech_patterns`; literals are lower-cased because
the source matches against the lower-cased text with `re.IGNORECASE`. -/
def techPatterns : List (List RTok) :=
  [[RTok.lit "agentic", RTok.splus, RTok.wplus],
   [RTok.wplus, RTok.splus, RTok.lit "ai"],
   [RTok.lit "ai", RTok.splus, RTok.wplus],
   [RTok.wplus, RTok.splus, RTok.lit "learning"],
   [RTok.lit "generative", RTok.splus, RTok.wplus],
   [RTok.wplus, RTok.splus, RTok.lit "computing"],
   [RTok.wplus, RTok.splus, RTok.lit "infrastructure"],
   [RTok.wplus, RTok.splus, RTok.lit "platform"],
   [RTok.wplus, RTok.splus, RTok.lit "as", RTok.splus, RTok.lit "a", RTok.splus,
    RTok.lit "service"],
   [RTok.wplus, RTok.splus, RTok.lit "saas"],
   [RTok.lit "vertical", RTok.splus, RTok.wplus],
   [RTok.wplus, RTok.splus, RTok.lit "marketplace"],
   [RTok.lit "embedded", RTok.splus, RTok.wplus],
   [RTok.wplus, RTok.splus, RTok.lit "payments"],
   [RTok.wplus, RTok.splus, RTok.lit "banking"],
   [RTok.wplus, RTok.splus, RTok.lit "fintech"],
   [RTok.wplus, RTok.splus, RTok.lit "automation"],
   [RTok.wplus, RTok.splus, RTok.lit "observability"],
   [RTok.wplus, RTok.splus, RTok.lit "orchestration"],
   [RTok.lit "digital", RTok.splus, RTok.lit "twin", RTok.wstar],
   [RTok.lit "supply", RTok.splus, RTok.lit "chain", RTok.splus, RTok.wplus],
   [RTok.lit "predictive", RTok.splus, RTok.wplus]]

/-- `KeywordExtractor._extract_tech_patterns`. -/
def extractTechPatterns (cfg : ExtractConfig) (text : String) : List String :=
  let text_lower := pyLower text
  techPatterns.flatMap (fun pat =>
    (reFindAll pat text_lower).filterMap (fun m =>
      let phrase := cleanPhrase m
      if isValidPhrase cfg phrase then some phrase else none))

/-! ### Counting (collections.Counter(...).most_common()) -/

/-- Distinct keys in first-insertion order (Python dict key order). -/
def dedupKeysFirst (l : List String) : List String :=
  l.foldl (fun acc a => if acc.contains a then acc else acc ++ [a]) []

/-- Insert into a count-descending list after all entries with a count at least as
large (preserving insertion order among equal counts, like Python's stable sort). -/
def insertByCountDesc (x : String × ℕ) : List (String × ℕ) → List (String × ℕ)
  | [] => [x]
  | y :: ys => if y.2 < x.2 then x :: y :: ys else y :: insertByCountDesc x ys

/-- Stable sort by count descending. -/
def sortByCountDesc (items : List (String × ℕ)) : List (String × ℕ) :=
  items.foldl (fun acc x => insertByCountDesc x acc) []

/-- `collections.Counter(l).most_common()`: distinct keys with multiplicities, sorted
by count descending, ties in first-insertion order. -/
def counterMostCommon (l : List String) : List (String × ℕ) :=
  sortByCountDesc ((dedupKeysFirst l).map (fun k => (k, l.count k)))

/-! ### The two extraction paths and extract_keywords -/

/-- One spaCy entity (surface text and label), an input from the external parser. -/
structure SpacyEnt where
  text : String
  label : String
  deriving Repr, DecidableEq

/-- The spaCy parse of a document: noun chunks and entities, inputs from the external
parser. -/
structure SpacyDoc where
  nounChunks : List String
  ents : List SpacyEnt
  deriving Repr, DecidableEq

/-- The person-name set built in `_extract_with_spacy` (a Python set used only for
membership, modelled as a list): lower-cased PERSON entities and their words. -/
def personNames (doc : SpacyDoc) : List String :=
  (doc.ents.filter (fun e => e.label == "PERSON")).flatMap
    (fun e => pyLower e.text :: (pySplit e.text).map pyLower)

/-- `KeywordExtractor._extract_with_spacy`, parameterized by the parse the external
spaCy model returns: noun chunks (minus person names), concept entities, tech-pattern
matches, then every phrase lower-cased and counted. -/
def extractWithSpacy (cfg : ExtractConfig) (doc : SpacyDoc) (text : String) :
    List (String × ℕ) :=
  let person_names := personNames doc
  let chunkPhrases := doc.nounChunks.filterMap (fun ctext =>
    let phrase := cleanPhrase ctext
    if person_names.any (fun name => decide (2 < name.data.length)
        && pyContains (pyLower phrase) name) then none
    else if isValidPhrase cfg phrase then some phrase else none)
  let entPhrases := (doc.ents.filter (fun e =>
      e.label == "PRODUCT" || e.label == "EVENT" || e.label == "WORK_OF_ART"
        || e.label == "LAW")).filterMap (fun e =>
    let phrase := cleanPhrase e.text
    if isValidPhrase cfg phrase then some phrase else none)
  let techPhrases := extractTechPatterns cfg text
  counterMostCommon ((chunkPhrases ++ entPhrases ++ techPhrases).map pyLower)

/-- `KeywordExtractor._extract_basic`: lower-case the text, slide every n-gram window
in the configured range, clean and filter, then count. -/
def extractBasic (cfg : ExtractConfig) (text : String) : List (String × ℕ) :=
  let words := pySplit (pyLower text)
  let phrases := ((List.range (cfg.maxKeywordLength + 1 - cfg.minKeywordLength)).map
      (fun i => i + cfg.minKeywordLength)).flatMap (fun n =>
    (List.range (words.length + 1 - n)).filterMap (fun i =>
      let phrase := cleanPhrase (joinSpace ((words.drop i).take n))
      if isValidPhrase cfg phrase then some phrase else none))
  counterMostCommon phrases

/-- `KeywordExtractor.extract_keywords`.  The input is `Option String` (Python `None`
or a string); a falsy input short-circuits to the empty result.  `nlp` is the loaded
spaCy model when available (`self.nlp`), modelled as a parse function; the text is
truncated to 100000 characters before parsing, as in the source. -/
def extract_keywords (cfg : ExtractConfig) (nlp : Option (String → SpacyDoc))
    (text : Option String) : List (String × ℕ) :=
  match text with
  | none => []
  | some t =>
      if t.isEmpty then []
      else
        match nlp with
        | some parse => extractWithSpacy cfg (parse (String.mk (t.data.take 100000))) t
        | none => extractBasic cfg t

end KWI

namespace KWI

/-- Claim C8: for empty (falsy) or non-string (None) input, extract_keywords returns
an empty result; as a total function of the embedding it never raises. -/
theorem extract_keywords_empty_input (cfg : ExtractConfig)
    (nlp : Option (String → SpacyDoc)) :
    extract_keywords cfg nlp none = [] ∧ extract_keywords cfg nlp (some "") = [] :=
  ⟨rfl, rfl⟩

theorem asciiIsUpper_pyCharLower (c : Char) : asciiIsUpper (pyCharLower c) = false := by
  unfold pyCharLower
  by_cases h : asciiIsUpper c = true
  · rw [if_pos h]
    simp only [asciiIsUpper, Bool.and_eq_true, decide_eq_true_eq] at h
    obtain ⟨h1, h2⟩ := h
    set n := c.toNat with hn
    interval_cases n <;> decide
  · rw [if_neg h]
    rw [Bool.not_eq_true] at h
    exact h

theorem pyCharLower_idem (c : Char) : pyCharLower (pyCharLower c) = pyCharLower c := by
  have h := asciiIsUpper_pyCharLower c
  set d := pyCharLower c with hd
  unfold pyCharLower
  rw [h]
  simp

theorem pyLower_idem (s : String) : pyLower (pyLower s) = pyLower s := by
  have hf : pyCharLower ∘ pyCharLower = pyCharLower := by
    funext c
    exact pyCharLower_idem c
  unfold pyLower
  simp only [List.map_map, hf]

set_option maxHeartbeats 3200000 in
/-- Claim C6: for any configured word-count bounds and stoplist, a 2-word phrase whose
last word is a functional stopword is rejected, and any phrase whose lower-cased text
equals a stoplist entry is rejected regardless of case. -/
theorem noise_filter_rejects (cfg : ExtractConfig) :
    (∀ (phrase w1 w2 : String), pySplit phrase = [w1, w2] →
        stopwords.contains (pyLower w2) = true →
        isValidPhrase cfg phrase = false)
    ∧ (∀ phrase : String, pyLower phrase ∈ cfg.filterPhrases →
        isValidPhrase cfg phrase = false) := by
  constructor
  · intro phrase w1 w2 hsplit hstop
    unfold isValidPhrase
    simp only [hsplit]
    have hlast : ([w1, w2] : List String).getLastD "" = w2 := rfl
    rw [hlast]
    split_ifs <;> try rfl
  · intro phrase hmem
    have hfp : ((cfg.filterPhrases.map pyLower).contains (pyLower phrase)) = true := by
      have : pyLower phrase ∈ cfg.filterPhrases.map pyLower :=
        List.mem_map.mpr ⟨pyLower phrase, hmem, pyLower_idem phrase⟩
      exact List.elem_iff.mpr this
    unfold isValidPhrase
    by_cases he : phrase.isEmpty = true
    · rw [if_pos he]
    · rw [if_neg he]
      dsimp only
      by_cases hw : (decide ((pySplit phrase).length < cfg.minKeywordLength)
          || decide ((pySplit phrase).length > cfg.maxKeywordLength)) = true
      · rw [if_pos hw]
      · rw [if_neg hw]
        rw [if_pos hfp]

/-- Witness for C6: "platform the" is rejected for ending in a stopword, and
"Machine LEARNING" is rejected against the stoplist entry "machine learning". -/
theorem noise_filter_rejects_witness :
    isValidPhrase (ExtractConfig.mk 2 4 ["machine learning"]) "platform the" = false
    ∧ isValidPhrase (ExtractConfig.mk 2 4 ["machine learning"]) "Machine LEARNING"
        = false :=
  ⟨(noise_filter_rejects (ExtractConfig.mk 2 4 ["machine learning"])).1 "platform the"
      "platform" "the" (by decide) (by decide),
   (noise_filter_rejects (ExtractConfig.mk 2 4 ["machine learning"])).2
      "Machine LEARNING" (by decide)⟩

end KWI

namespace KWI

/-! ### Lemmas: counter membership and lower-cased output -/

/-- True when a string contains no ASCII uppercase letter (is fully lower-cased). -/
def allLowerStr (s : String) : Bool := s.data.all (fun c => !asciiIsUpper c)

theorem allLowerStr_pyLower (s : String) : allLowerStr (pyLower s) = true := by
  unfold allLowerStr pyLower
  show (s.data.map pyCharLower).all (fun c => !asciiIsUpper c) = true
  rw [List.all_eq_true]
  intro c hc
  rcases List.mem_map.mp hc with ⟨c0, _, rfl⟩
  simp [asciiIsUpper_pyCharLower]

theorem mem_insertByCountDesc (x z : String × ℕ) :
    ∀ l : List (String × ℕ), z ∈ insertByCountDesc x l → z = x ∨ z ∈ l := by
  intro l
  induction l with
  | nil =>
    intro h
    unfold insertByCountDesc at h
    exact Or.inl (List.mem_singleton.mp h)
  | cons y ys ih =>
    intro h
    unfold insertByCountDesc at h
    split at h
    · rcases List.mem_cons.mp h with rfl | h2
      · exact Or.inl rfl
      · exact Or.inr h2
    · rcases List.mem_cons.mp h with rfl | h2
      · exact Or.inr (List.mem_cons_self _ _)
      · rcases ih h2 with h3 | h3
        · exact Or.inl h3
        · exact Or.inr (List.mem_cons_of_mem _ h3)

theorem mem_sortByCountDesc (items : List (String × ℕ)) (z : String × ℕ)
    (h : z ∈ sortByCountDesc items) : z ∈ items := by
  unfold sortByCountDesc at h
  suffices haux : ∀ (acc : List (String × ℕ)),
      z ∈ items.foldl (fun a x => insertByCountDesc x a) acc → z ∈ acc ∨ z ∈ items by
    rcases haux [] h with h2 | h2
    · cases h2
    · exact h2
  clear h
  induction items with
  | nil =>
    intro acc h
    exact Or.inl h
  | cons y ys ih =>
    intro acc h
    rw [List.foldl_cons] at h
    rcases ih _ h with h2 | h2
    · rcases mem_insertByCountDesc y z acc h2 with rfl | h3
      · exact Or.inr (List.mem_cons_self _ _)
      · exact Or.inl h3
    · exact Or.inr (List.mem_cons_of_mem _ h2)

theorem mem_dedupKeysFirst (l : List String) (z : String) (h : z ∈ dedupKeysFirst l) :
    z ∈ l := by
  unfold dedupKeysFirst at h
  suffices haux : ∀ acc : List String,
      z ∈ l.foldl (fun acc a => if acc.contains a then acc else acc ++ [a]) acc →
      z ∈ acc ∨ z ∈ l by
    rcases haux [] h with h2 | h2
    · cases h2
    · exact h2
  clear h
  induction l with
  | nil =>
    intro acc h
    exact Or.inl h
  | cons y ys ih =>
    intro acc h
    rw [List.foldl_cons] at h
    rcases ih _ h with h2 | h2
    · by_cases hc : acc.contains y = true
      · rw [if_pos hc] at h2
        exact Or.inl h2
      · rw [if_neg hc] at h2
        rcases List.mem_append.mp h2 with h3 | h3
        · exact Or.inl h3
        · rw [List.mem_singleton.mp h3]
          exact Or.inr (List.mem_cons_self _ _)
    · exact Or.inr (List.mem_cons_of_mem _ h2)

theorem counterMostCommon_key_mem (l : List String) (kw : String) (c : ℕ)
    (h : (kw, c) ∈ counterMostCommon l) : kw ∈ l := by
  unfold counterMostCommon at h
  have h2 := mem_sortByCountDesc _ _ h
  rcases List.mem_map.mp h2 with ⟨k, hk, heq⟩
  have hkkw : k = kw := congrArg Prod.fst heq
  rw [hkkw] at hk
  exact mem_dedupKeysFirst l kw hk

end KWI

namespace KWI

theorem all_of_mem_sub {p : Char → Bool} {l1 l2 : List Char}
    (hsub : ∀ x, x ∈ l1 → x ∈ l2) (h : l2.all p = true) : l1.all p = true := by
  rw [List.all_eq_true] at h ⊢
  intro x hx
  exact h x (hsub x hx)

theorem mem_of_mem_dropWhile' {q : Char → Bool} {x : Char} :
    ∀ {l : List Char}, x ∈ l.dropWhile q → x ∈ l := by
  intro l
  induction l with
  | nil => intro h; exact h
  | cons c cs ih =>
    intro h
    rw [List.dropWhile_cons] at h
    split at h
    · exact List.mem_cons_of_mem _ (ih h)
    · exact h

theorem all_pyStripNonWord {p : Char → Bool} {s : String} (h : s.data.all p = true) :
    (pyStripNonWord s).data.all p = true := by
  unfold pyStripNonWord
  show ((((s.data.dropWhile _).reverse.dropWhile _).reverse : List Char)).all p = true
  apply all_of_mem_sub _ h
  intro x hx
  exact mem_of_mem_dropWhile' (List.mem_reverse.mp
    (mem_of_mem_dropWhile' (List.mem_reverse.mp hx)))

theorem pySplitAux_words_all (p : Char → Bool) :
    ∀ (l acc : List Char), acc.all p = true → l.all p = true →
    ∀ w ∈ pySplitAux acc l, w.data.all p = true := by
  intro l
  induction l with
  | nil =>
    intro acc hacc _ w hw
    unfold pySplitAux at hw
    split at hw
    · cases hw
    · rw [List.mem_singleton.mp hw]
      show acc.reverse.all p = true
      apply all_of_mem_sub _ hacc
      intro x hx
      exact List.mem_reverse.mp hx
  | cons c cs ih =>
    intro acc hacc hl w hw
    simp only [List.all_cons, Bool.and_eq_true] at hl
    unfold pySplitAux at hw
    split at hw
    · split at hw
      · exact ih [] rfl hl.2 w hw
      · rcases List.mem_cons.mp hw with rfl | hw2
        · show acc.reverse.all p = true
          apply all_of_mem_sub _ hacc
          intro x hx
          exact List.mem_reverse.mp hx
        · exact ih [] rfl hl.2 w hw2
    · refine ih (c :: acc) ?_ hl.2 w hw
      simp only [List.all_cons, Bool.and_eq_true]
      exact ⟨hl.1, hacc⟩

theorem pySplit_words_all {p : Char → Bool} {s : String} (h : s.data.all p = true) :
    ∀ w ∈ pySplit s, w.data.all p = true :=
  pySplitAux_words_all p s.data [] rfl h

theorem joinSpace_all (p : Char → Bool) (hsp : p ' ' = true) :
    ∀ ws : List String, (∀ w ∈ ws, w.data.all p = true) →
    (joinSpace ws).data.all p = true := by
  intro ws
  induction ws with
  | nil => intro _; rfl
  | cons w ws ih =>
    intro h
    cases ws with
    | nil => exact h w (List.mem_singleton_self w)
    | cons w2 ws2 =>
      show ((w ++ " " ++ joinSpace (w2 :: ws2)).data).all p = true
      have hdata : (w ++ " " ++ joinSpace (w2 :: ws2)).data
          = w.data ++ " ".data ++ (joinSpace (w2 :: ws2)).data := rfl
      rw [hdata]
      simp only [List.all_append, Bool.and_eq_true]
      refine ⟨⟨h w (List.mem_cons_self _ _), ?_⟩, ?_⟩
      · simpa using hsp
      · exact ih (fun x hx => h x (List.mem_cons_of_mem _ hx))

theorem cleanPhrase_all_of_all {p : Char → Bool} (hsp : p ' ' = true)
    (hlow : ∀ w : String, (pyLower w).data.all p = true) {s : String}
    (h : s.data.all p = true) : (cleanPhrase s).data.all p = true := by
  unfold cleanPhrase
  apply joinSpace_all p hsp
  intro w hw
  rcases List.mem_map.mp hw with ⟨w0, hw0, rfl⟩
  have hw0all : w0.data.all p = true := by
    have hp1 : (joinSpace (pySplit s)).data.all p = true :=
      joinSpace_all p hsp _ (pySplit_words_all h)
    have hp2 : (pyStripNonWord (joinSpace (pySplit s))).data.all p = true :=
      all_pyStripNonWord hp1
    exact pySplit_words_all hp2 w0 hw0
  by_cases hcond : (pyIsUpper w0 && decide (w0.data.length ≤ 5)) = true
  · rw [if_pos hcond]
    exact hw0all
  · rw [if_neg hcond]
    exact hlow w0

end KWI

namespace KWI

theorem extractWithSpacy_keys_lower (cfg : ExtractConfig) (doc : SpacyDoc)
    (text kw : String) (c : ℕ) (h : (kw, c) ∈ extractWithSpacy cfg doc text) :
    allLowerStr kw = true := by
  unfold extractWithSpacy at h
  have hmem := counterMostCommon_key_mem _ _ _ h
  rcases List.mem_map.mp hmem with ⟨y, _, rfl⟩
  exact allLowerStr_pyLower y

theorem extractBasic_keys_lower (cfg : ExtractConfig) (text kw : String) (c : ℕ)
    (h : (kw, c) ∈ extractBasic cfg text) : allLowerStr kw = true := by
  unfold extractBasic at h
  have hmem := counterMostCommon_key_mem _ _ _ h
  rcases List.mem_flatMap.mp hmem with ⟨n, _, hn⟩
  rcases List.mem_filterMap.mp hn with ⟨i, _, hi⟩
  by_cases hv : isValidPhrase cfg
      (cleanPhrase (joinSpace (((pySplit (pyLower text)).drop i).take n))) = true
  · rw [if_pos hv, Option.some_inj] at hi
    rw [← hi]
    have hlowtext : (pyLower text).data.all (fun ch => !asciiIsUpper ch) = true :=
      allLowerStr_pyLower text
    have hwords := pySplit_words_all hlowtext
    have hwin : ∀ w ∈ ((pySplit (pyLower text)).drop i).take n,
        w.data.all (fun ch => !asciiIsUpper ch) = true := by
      intro w hw
      exact hwords w ((List.take_sublist _ _).mem hw |> (List.drop_sublist _ _).mem)
    show (cleanPhrase (joinSpace (((pySplit (pyLower text)).drop i).take n))).data.all
      (fun ch => !asciiIsUpper ch) = true
    exact cleanPhrase_all_of_all (by decide)
      (fun w => allLowerStr_pyLower w) (joinSpace_all _ (by decide) _ hwin)
  · rw [if_neg hv] at hi
    cases hi

/-- Counterexample to claim C7: in the n-gram fallback path the text is lower-cased
before extraction, so the short all-caps token "AI" is not preserved - the output is
"ai agents", not "AI agents". -/
theorem acronym_preservation_counterexample :
    extract_keywords defaultExtractConfig none (some "AI agents") = [("ai agents", 1)]
    ∧ ¬ ("AI agents" ∈ (extract_keywords defaultExtractConfig none
          (some "AI agents")).map Prod.fst) := by
  constructor
  · decide
  · decide

/-- Amended claim C7: every phrase in the (keyword, count) result of extract_keywords
is fully lower-cased, in both the linguistic-parser path (which lower-cases all
phrases before counting) and the n-gram fallback path (which lower-cases the whole
text before extraction); the acronym preservation in the helper _clean_phrase never
survives to the output. -/
theorem extract_keywords_fully_lowercased (cfg : ExtractConfig)
    (nlp : Option (String → SpacyDoc)) (text : Option String) (kw : String) (c : ℕ)
    (h : (kw, c) ∈ extract_keywords cfg nlp text) : allLowerStr kw = true := by
  cases text with
  | none =>
    simp only [extract_keywords] at h
    cases h
  | some t =>
    simp only [extract_keywords] at h
    by_cases he : t.isEmpty = true
    · rw [if_pos he] at h
      cases h
    · rw [if_neg he] at h
      cases nlp with
      | some parse => exact extractWithSpacy_keys_lower cfg _ t kw c h
      | none => exact extractBasic_keys_lower cfg t kw c h

/-- Witness for the amended C7 at a concrete input. -/
theorem extract_keywords_fully_lowercased_witness : allLowerStr "ai agents" = true :=
  extract_keywords_fully_lowercased defaultExtractConfig none (some "AI agents")
    "ai agents" 1 (by decide)

end KWI

